import Mathlib

/-!
Verification of the bomana-worker repository: a shallow embedding of the
Cloudflare Worker entry (`src/index.js`) and, for the update service whose
`server.py` is documented but not shipped in this repository, models built
from the specification (manifest resolution with dual-source fallback,
TTL cache, single-flight coalescing, and the daily stats aggregator).
-/

namespace BomanaWorker

/-- A URL in parsed-component form (the WHATWG URL model restricted to the
components the worker reads or writes: scheme, host, pathname, search and
hash). In a parsed URL the pathname contains no raw `?` or `#`, the search
is empty or starts with `?` and contains no `#`; `URL.wf` below records
exactly these facts. -/
structure URL where
  scheme : String
  host : String
  pathname : String
  search : String
  hash : String
deriving DecidableEq, Repr

/-- Well-formedness of a parsed URL: the serialized pathname never contains
a raw `?` or `#` (those are percent-encoded by the parser), and the search
component is empty or begins with `?` and never contains a raw `#`. -/
def URL.wf (u : URL) : Bool :=
  u.pathname.data.all (fun c => c != '?' && c != '#') &&
  u.search.data.all (fun c => c != '#') &&
  (u.search.data.headD '?' == '?')

/-- The `redirect` option of the Fetch API. -/
inductive RedirectMode
  | follow
  | manual
  | error
deriving DecidableEq, Repr

/-- An HTTP request as the worker sees it: the parsed URL plus the parts
copied by `new Request(url, request)` (method, headers, body). -/
structure Request where
  url : URL
  method : String
  headers : List (String × String)
  body : String
deriving DecidableEq, Repr

/-- An HTTP response: status, header list, body. -/
structure Response where
  status : Nat
  headers : List (String × String)
  body : String
deriving DecidableEq, Repr

/-- `const ORIGIN = "https://bomanaupdate.ruikang.wang"` from `src/index.js`. -/
def ORIGIN : String := "https://bomanaupdate.ruikang.wang"

/-- The scheme of `ORIGIN`. -/
def originScheme : String := "https"

/-- The host of `ORIGIN`. -/
def originHost : String := "bomanaupdate.ruikang.wang"

/-- Embedding of JavaScript `p.startsWith(pre)`: `pre` is a prefix of the
character sequence of `p`. -/
def jsStartsWith (p pre : String) : Bool :=
  pre.data.isPrefixOf p.data

/-- The worker's routing predicate, from `src/index.js`:
`p === "/healthz" || p.startsWith("/api/")`. -/
def pathAllowed (p : String) : Bool :=
  p == "/healthz" || jsStartsWith p "/api/"

/-- Embedding of `new URL(rel, ORIGIN)` for a root-relative string `rel`
(the worker always passes `pathname + search`, which starts with `/`): the
fragment begins at the first `#`, the query at the first `?` before any
`#`, and scheme and host are taken from the base `ORIGIN`. -/
def newURLRel (rel : String) : URL :=
  let cs := rel.data
  let beforeHash := cs.takeWhile (fun c => c != '#')
  let hashPart := cs.dropWhile (fun c => c != '#')
  let pathPart := beforeHash.takeWhile (fun c => c != '?')
  let searchPart := beforeHash.dropWhile (fun c => c != '?')
  { scheme := originScheme, host := originHost,
    pathname := String.mk pathPart, search := String.mk searchPart,
    hash := String.mk hashPart }

/-- Case-insensitive equality of header names (the Headers API compares
names ASCII-case-insensitively). -/
def lowerEq (a b : String) : Bool :=
  a.data.map Char.toLower == b.data.map Char.toLower

/-- Embedding of `Headers.set(name, value)`: replaces every value stored
under the (case-insensitive) name and records the new value. -/
def headersSet (hs : List (String × String)) (nm v : String) :
    List (String × String) :=
  hs.filter (fun h => !(lowerEq h.1 nm)) ++ [(nm, v)]

/-- Embedding of `Headers.get(name)`: the value stored under the
(case-insensitive) name, if any. -/
def headersGet (hs : List (String × String)) (nm : String) : Option String :=
  (hs.find? (fun h => lowerEq h.1 nm)).map (fun h => h.2)

/-- The destination request built by the worker on the forwarding path:
`new Request(new URL(p + src.search, ORIGIN).toString(), request)` — same
method, headers and body, with the URL rebased onto `ORIGIN`. -/
def proxiedRequest (request : Request) : Request :=
  { request with url := newURLRel (request.url.pathname ++ request.url.search) }

/-- The `Response("Not Found", \x7b status: 404 \x7d)` the worker returns on a
rejected path. -/
def notFoundResponse : Response :=
  { status := 404,
    headers := [("Content-Type", "text/plain;charset=UTF-8")],
    body := "Not Found" }

/-- Embedding of the worker fetch handler of `src/index.js`. `origin` stands
for the global `fetch` against the origin: it maps the proxied request and
the redirect option to the origin's response. The result is the response
returned to the client together with the subrequest issued to the origin
(`none` when no subrequest was issued). -/
def workerFetch (origin : Request → RedirectMode → Response)
    (request : Request) : Response × Option (Request × RedirectMode) :=
  let p := request.url.pathname
  if !(pathAllowed p) then
    (notFoundResponse, none)
  else
    let proxiedReq := proxiedRequest request
    let resp := origin proxiedReq RedirectMode.follow
    let out : Response :=
      { resp with headers := headersSet resp.headers "Cache-Control" "no-store" }
    (out, some (proxiedReq, RedirectMode.follow))

theorem workerFetch_sub_isSome (origin : Request → RedirectMode → Response)
    (request : Request) :
    (workerFetch origin request).2.isSome = pathAllowed request.url.pathname := by
  unfold workerFetch
  cases h : pathAllowed request.url.pathname <;> simp [h]

theorem headersGet_headersSet (hs : List (String × String)) (nm v : String) :
    headersGet (headersSet hs nm v) nm = some v := by
  induction hs with
  | nil => simp [headersGet, headersSet, List.find?, lowerEq]
  | cons h t ih =>
    by_cases hc : lowerEq h.1 nm = true
    · simpa [headersSet, List.filter_cons, hc] using ih
    · simp only [Bool.not_eq_true] at hc
      simp only [headersSet, List.filter_cons, hc, Bool.not_false, if_pos] at ih ⊢
      simpa [headersGet, List.find?, hc] using ih

theorem takeWhile_append_of_all {α} (p : α → Bool) (l1 l2 : List α)
    (h : ∀ a ∈ l1, p a = true) :
    (l1 ++ l2).takeWhile p = l1 ++ l2.takeWhile p := by
  induction l1 with
  | nil => simp
  | cons a t ih =>
    have ha : p a = true := h a (by simp)
    simp only [List.cons_append, List.takeWhile_cons_of_pos ha, List.cons.injEq, true_and]
    exact ih (fun b hb => h b (by simp [hb]))

theorem dropWhile_append_of_all {α} (p : α → Bool) (l1 l2 : List α)
    (h : ∀ a ∈ l1, p a = true) :
    (l1 ++ l2).dropWhile p = l2.dropWhile p := by
  induction l1 with
  | nil => simp
  | cons a t ih =>
    have ha : p a = true := h a (by simp)
    simp only [List.cons_append, List.dropWhile_cons_of_pos ha]
    exact ih (fun b hb => h b (by simp [hb]))

/-- A demonstration origin server used to instantiate the theorems below. -/
def demoOrigin : Request → RedirectMode → Response :=
  fun _ _ => { status := 200, headers := [("X-Upstream", "svc")], body := "ok" }

/-- A second, different demonstration origin server. -/
def demoOrigin2 : Request → RedirectMode → Response :=
  fun _ _ => { status := 503, headers := [], body := "down" }

/-- A demonstration client URL with the given pathname and search. -/
def demoURL (p q : String) : URL :=
  { scheme := "https", host := "worker.example", pathname := p, search := q,
    hash := "" }

/-- A demonstration GET request with the given pathname and search. -/
def demoReq (p q : String) : Request :=
  { url := demoURL p q, method := "GET", headers := [], body := "" }

/-- C1: the worker forwards a request to the origin if and only if the
request URL's pathname is exactly `/healthz` or begins with `/api/`; every
other pathname gets a 404 response with body `Not Found` and no subrequest
to the origin is issued. -/
theorem worker_routes_iff (origin : Request → RedirectMode → Response)
    (request : Request) :
    ((workerFetch origin request).2.isSome = true ↔
      (request.url.pathname = "/healthz" ∨
        jsStartsWith request.url.pathname "/api/" = true))
    ∧ (¬(request.url.pathname = "/healthz" ∨
          jsStartsWith request.url.pathname "/api/" = true) →
        (workerFetch origin request).1.status = 404 ∧
        (workerFetch origin request).1.body = "Not Found" ∧
        (workerFetch origin request).2 = none) := by
  have hiff : pathAllowed request.url.pathname = true ↔
      (request.url.pathname = "/healthz" ∨
        jsStartsWith request.url.pathname "/api/" = true) := by
    simp [pathAllowed]
  constructor
  · rw [workerFetch_sub_isSome]; exact hiff
  · intro hno
    have hfalse : pathAllowed request.url.pathname = false := by
      cases h : pathAllowed request.url.pathname
      · rfl
      · exact absurd (hiff.mp h) hno
    unfold workerFetch
    simp [hfalse, notFoundResponse]

/-- Witness for C1 at the bare path `/api` (no trailing slash): the worker
rejects it with 404 `Not Found` and issues no subrequest. -/
theorem worker_routes_iff_witness :
    (workerFetch demoOrigin (demoReq "/api" "")).1.status = 404 ∧
    (workerFetch demoOrigin (demoReq "/api" "")).1.body = "Not Found" ∧
    (workerFetch demoOrigin (demoReq "/api" "")).2 = none :=
  (worker_routes_iff demoOrigin (demoReq "/api" "")).2 (by decide)

/-- C10: the worker's routing decision (forward versus reject) is a
function of the request URL's pathname alone: two requests with the same
pathname receive the same decision regardless of origin behaviour, method,
headers, body, query string or any other part of the request. -/
theorem worker_routing_function_of_pathname
    (o1 o2 : Request → RedirectMode → Response) (r1 r2 : Request)
    (h : r1.url.pathname = r2.url.pathname) :
    (workerFetch o1 r1).2.isSome = (workerFetch o2 r2).2.isSome := by
  rw [workerFetch_sub_isSome, workerFetch_sub_isSome, h]

/-- Witness for C10: a GET with no query against one origin and a POST
with a query and different headers against another origin, both with
pathname `/api/v1/version`, are routed identically. -/
theorem worker_routing_function_of_pathname_witness :
    (workerFetch demoOrigin (demoReq "/api/v1/version" "")).2.isSome =
    (workerFetch demoOrigin2
      { url := demoURL "/api/v1/version" "?channel=Enhanced",
        method := "POST", headers := [("X-A", "b")], body := "x" }).2.isSome :=
  worker_routing_function_of_pathname demoOrigin demoOrigin2
    (demoReq "/api/v1/version" "")
    { url := demoURL "/api/v1/version" "?channel=Enhanced",
      method := "POST", headers := [("X-A", "b")], body := "x" } rfl

theorem newURLRel_spec (pstr sstr : String)
    (hp : ∀ c ∈ pstr.data, (c != '?') = true ∧ (c != '#') = true)
    (hs : ∀ c ∈ sstr.data, (c != '#') = true)
    (hhead : sstr.data.headD '?' = '?') :
    newURLRel (pstr ++ sstr) =
      { scheme := originScheme, host := originHost, pathname := pstr,
        search := sstr, hash := "" } := by
  have hdata : (pstr ++ sstr).data = pstr.data ++ sstr.data :=
    String.data_append pstr sstr
  have hbefore : (pstr.data ++ sstr.data).takeWhile (fun c => c != '#') =
      pstr.data ++ sstr.data := by
    rw [takeWhile_append_of_all _ _ _ (fun a ha => (hp a ha).2)]
    rw [List.takeWhile_eq_self_iff.mpr hs]
  have hhash : (pstr.data ++ sstr.data).dropWhile (fun c => c != '#') = [] := by
    rw [dropWhile_append_of_all _ _ _ (fun a ha => (hp a ha).2)]
    exact List.dropWhile_eq_nil_iff.mpr hs
  have hpath : (pstr.data ++ sstr.data).takeWhile (fun c => c != '?') =
      pstr.data := by
    rw [takeWhile_append_of_all _ _ _ (fun a ha => (hp a ha).1)]
    cases hcs : sstr.data with
    | nil => simp
    | cons c t =>
      have hc : c = '?' := by simpa [hcs] using hhead
      simp [hc]
  have hsearch : (pstr.data ++ sstr.data).dropWhile (fun c => c != '?') =
      sstr.data := by
    rw [dropWhile_append_of_all _ _ _ (fun a ha => (hp a ha).1)]
    cases hcs : sstr.data with
    | nil => simp
    | cons c t =>
      have hc : c = '?' := by simpa [hcs] using hhead
      simp [hc]
  simp only [newURLRel, hdata, hbefore, hhash, hpath, hsearch]

/-- C2: on every forwarded request (pathname `/healthz` or `/api/...`,
well-formed parsed URL) the worker issues exactly one subrequest, with
redirect mode `follow`, whose URL carries the scheme and host of
`https://bomanaupdate.ruikang.wang` while the pathname and the query
string are preserved character for character, no fragment is forwarded,
and method, headers and body are those of the incoming request. -/
theorem worker_forward_preserves_path_query
    (origin : Request → RedirectMode → Response) (request : Request)
    (hallow : pathAllowed request.url.pathname = true)
    (hwf : request.url.wf = true) :
    (workerFetch origin request).2 =
      some (proxiedRequest request, RedirectMode.follow)
    ∧ (proxiedRequest request).url.scheme = originScheme
    ∧ (proxiedRequest request).url.host = originHost
    ∧ (proxiedRequest request).url.pathname = request.url.pathname
    ∧ (proxiedRequest request).url.search = request.url.search
    ∧ (proxiedRequest request).url.hash = ""
    ∧ (proxiedRequest request).method = request.method
    ∧ (proxiedRequest request).headers = request.headers
    ∧ (proxiedRequest request).body = request.body
    ∧ ORIGIN = originScheme ++ "://" ++ originHost := by
  have hsub : (workerFetch origin request).2 =
      some (proxiedRequest request, RedirectMode.follow) := by
    unfold workerFetch
    simp [hallow]
  unfold URL.wf at hwf
  simp only [Bool.and_eq_true, List.all_eq_true] at hwf
  obtain ⟨⟨h1, h2⟩, h3⟩ := hwf
  have hp : ∀ c ∈ request.url.pathname.data, (c != '?') = true ∧ (c != '#') = true := by
    intro c hc
    exact h1 c hc
  have hhead : request.url.search.data.headD '?' = '?' := by
    simpa using h3
  have hurl := newURLRel_spec request.url.pathname request.url.search hp h2 hhead
  refine ⟨hsub, ?_, ?_, ?_, ?_, ?_, rfl, rfl, rfl, rfl⟩ <;>
    simp [proxiedRequest, hurl]

/-- Witness for C2 at a concrete request `/api/v1/version?channel=Lite`. -/
theorem worker_forward_preserves_path_query_witness :
    (workerFetch demoOrigin (demoReq "/api/v1/version" "?channel=Lite")).2 =
      some (proxiedRequest (demoReq "/api/v1/version" "?channel=Lite"),
        RedirectMode.follow)
    ∧ (proxiedRequest (demoReq "/api/v1/version" "?channel=Lite")).url.scheme =
        originScheme
    ∧ (proxiedRequest (demoReq "/api/v1/version" "?channel=Lite")).url.host =
        originHost
    ∧ (proxiedRequest (demoReq "/api/v1/version" "?channel=Lite")).url.pathname =
        (demoReq "/api/v1/version" "?channel=Lite").url.pathname
    ∧ (proxiedRequest (demoReq "/api/v1/version" "?channel=Lite")).url.search =
        (demoReq "/api/v1/version" "?channel=Lite").url.search
    ∧ (proxiedRequest (demoReq "/api/v1/version" "?channel=Lite")).url.hash = ""
    ∧ (proxiedRequest (demoReq "/api/v1/version" "?channel=Lite")).method =
        (demoReq "/api/v1/version" "?channel=Lite").method
    ∧ (proxiedRequest (demoReq "/api/v1/version" "?channel=Lite")).headers =
        (demoReq "/api/v1/version" "?channel=Lite").headers
    ∧ (proxiedRequest (demoReq "/api/v1/version" "?channel=Lite")).body =
        (demoReq "/api/v1/version" "?channel=Lite").body
    ∧ ORIGIN = originScheme ++ "://" ++ originHost :=
  worker_forward_preserves_path_query demoOrigin
    (demoReq "/api/v1/version" "?channel=Lite") (by decide) (by decide)

/-- C9: on every forwarded request the worker's response carries the
header `Cache-Control: no-store`, while the status and body of the
origin's response are passed through to the client unchanged. -/
theorem worker_response_passthrough
    (origin : Request → RedirectMode → Response) (request : Request)
    (h : pathAllowed request.url.pathname = true) :
    (workerFetch origin request).1.status =
      (origin (proxiedRequest request) RedirectMode.follow).status
    ∧ (workerFetch origin request).1.body =
        (origin (proxiedRequest request) RedirectMode.follow).body
    ∧ headersGet (workerFetch origin request).1.headers "Cache-Control" =
        some "no-store" := by
  unfold workerFetch
  simp [h, headersGet_headersSet]

/-- Witness for C9 at a concrete `/healthz` request forwarded to a server
that answers 200 `ok`. -/
theorem worker_response_passthrough_witness :
    (workerFetch demoOrigin (demoReq "/healthz" "")).1.status =
      (demoOrigin (proxiedRequest (demoReq "/healthz" ""))
        RedirectMode.follow).status
    ∧ (workerFetch demoOrigin (demoReq "/healthz" "")).1.body =
        (demoOrigin (proxiedRequest (demoReq "/healthz" ""))
          RedirectMode.follow).body
    ∧ headersGet (workerFetch demoOrigin (demoReq "/healthz" "")).1.headers
        "Cache-Control" = some "no-store" :=
  worker_response_passthrough demoOrigin (demoReq "/healthz" "") (by decide)

end BomanaWorker

namespace BomanaService

open BomanaWorker (Response)

/-- Modelled from the spec: a release channel, an immutable identifier
used as the cache and store key (`server.py` is not shipped in this
repository; only its documentation is). -/
abbrev Channel := String

/-- Modelled from the spec: the per-channel release description returned
by manifest resolution (§3 ManifestRecord). -/
structure ManifestRecord where
  app_version : String
  package_asset : String
  package_sha256 : Option String
  entrypoint : String
  package_url : Option String
  source_name : String
deriving DecidableEq, Repr

/-- Modelled from the spec: a cache entry wraps a record with its fetch
time and a fixed TTL (§3 CacheEntry). Times are seconds. -/
structure CacheEntry where
  record : ManifestRecord
  fetched_at : Nat
  ttl : Nat
deriving DecidableEq, Repr

/-- Modelled from the spec: expiry is evaluated at read time,
`now - fetched_at > ttl` means expired (§4.2). -/
def CacheEntry.expired (e : CacheEntry) (now : Nat) : Bool :=
  now - e.fetched_at > e.ttl

/-- Modelled from the spec: the two manifest sources — the remote release
origin (GitHub) and the local fallback store (§2, §4.3). -/
inductive Source
  | github
  | localStore
deriving DecidableEq, Repr

/-- The provenance tag recorded for each source. -/
def sourceName : Source → String
  | Source.github => "github"
  | Source.localStore => "local"

/-- Modelled from the spec: resolver configuration (§6) — resolution
order, cache TTL seconds, stats-only mode, URL-synthesis switch and the
remote repository coordinates. -/
structure Config where
  order : List Source
  ttlSec : Nat
  statsOnly : Bool
  autoGithubPackageUrl : Bool
  repoOwner : String
  repoName : String
deriving Repr

/-- One source's behaviour for one resolution attempt: `none` is a source
failure (unreachable, malformed payload, or channel absent — all handled
identically, §4.3). -/
abbrev Env := Source → Channel → Option ManifestRecord

/-- The in-memory cache keyed by channel (§4.2). -/
abbrev CacheState := Channel → Option CacheEntry

/-- Modelled from the spec: resolution failure taxonomy entry
ResolutionExhausted — both sources failed, or stats-only mode cannot
produce a URL (§7). -/
inductive ResolutionError
  | resolutionExhausted
deriving DecidableEq, Repr

/-- A record has a usable download URL: `package_url` present and
non-empty. -/
def hasUrl (r : ManifestRecord) : Bool :=
  match r.package_url with
  | some u => u != ""
  | none => false

/-- Modelled from the spec: synthesize the download URL from the
remote-origin naming template using `app_version` and `package_asset`,
when `AUTO_GITHUB_PACKAGE_URL` is enabled (§4.1, §6). -/
def synthesizeUrl (cfg : Config) (r : ManifestRecord) : Option String :=
  if cfg.autoGithubPackageUrl && r.app_version != "" && r.package_asset != "" then
    some ("https://github.com/" ++
      (cfg.repoOwner ++ "/" ++ cfg.repoName ++ "/releases/download/v" ++
        r.app_version ++ "/" ++ r.package_asset))
  else
    none

/-- Modelled from the spec: after selecting a record, keep an explicit
URL, otherwise synthesize one; in stats-only mode a record with no
producible URL is a fatal resolution error, otherwise it is a degraded
success (§4.1). The record is tagged with its source's name. -/
def finalize (cfg : Config) (r : ManifestRecord) (src : Source) :
    Option ManifestRecord :=
  if hasUrl r then
    some { r with source_name := sourceName src }
  else
    match synthesizeUrl cfg r with
    | some u => some { r with package_url := some u, source_name := sourceName src }
    | none =>
      if cfg.statsOnly then none
      else some { r with source_name := sourceName src }

/-- Modelled from the spec: consult sources in the configured order; the
first source that returns a valid manifest wins, the second is attempted
only on first-source failure (§4.1). -/
def firstSource (env : Env) (ch : Channel) :
    List Source → Option (ManifestRecord × Source)
  | [] => none
  | s :: rest =>
    match env s ch with
    | some r => some (r, s)
    | none => firstSource env ch rest

/-- The sources actually consulted by `firstSource` (for fetch-count
accounting): every failing source in order, plus the first success. -/
def consulted (env : Env) (ch : Channel) : List Source → List Source
  | [] => []
  | s :: rest =>
    match env s ch with
    | some _ => [s]
    | none => s :: consulted env ch rest

/-- The outcome of one `resolve` call: the result, the cache afterwards,
and the list of sources consulted (empty on a cache hit). -/
structure ResolveOutcome where
  result : Except ResolutionError ManifestRecord
  cache : CacheState
  fetched : List Source

/-- Modelled from the spec: the miss path of resolution — consult sources
in order, finalize the winner (URL synthesis / stats-only check), write
the cache with `fetched_at = now` on success, and fail closed with the
cache untouched otherwise (§4.1). -/
def resolveMiss (cfg : Config) (env : Env) (st : CacheState) (now : Nat)
    (ch : Channel) : ResolveOutcome :=
  match firstSource env ch cfg.order with
  | none =>
    { result := Except.error ResolutionError.resolutionExhausted,
      cache := st, fetched := consulted env ch cfg.order }
  | some (r, s) =>
    match finalize cfg r s with
    | none =>
      { result := Except.error ResolutionError.resolutionExhausted,
        cache := st, fetched := consulted env ch cfg.order }
    | some r' =>
      { result := Except.ok r',
        cache := fun c => if c = ch then
            some { record := r', fetched_at := now, ttl := cfg.ttlSec }
          else st c,
        fetched := consulted env ch cfg.order }

/-- Modelled from the spec: `resolve(channel)` — a fresh cache entry is
returned immediately with no source consulted; otherwise the miss path
runs (§4.1, §4.2). -/
def resolve (cfg : Config) (env : Env) (st : CacheState) (now : Nat)
    (ch : Channel) : ResolveOutcome :=
  match st ch with
  | some e =>
    if e.expired now then resolveMiss cfg env st now ch
    else { result := Except.ok e.record, cache := st, fetched := [] }
  | none => resolveMiss cfg env st now ch

theorem firstSource_eq_none (env : Env) (ch : Channel) (l : List Source)
    (h : ∀ s ∈ l, env s ch = none) : firstSource env ch l = none := by
  induction l with
  | nil => rfl
  | cons s rest ih =>
    have hs : env s ch = none := h s (by simp)
    simp only [firstSource, hs]
    exact ih (fun a ha => h a (by simp [ha]))

/-- C4: after a resolution that actually consulted the sources and
succeeded at time `t`, a second `resolve` call for the same channel at any
time `t'` within the TTL window (`t' - t ≤ ttl`) consults no source at
all — the fresh cache entry is returned immediately and the cache is
unchanged. -/
theorem resolve_cached_within_ttl (cfg : Config) (env : Env) (st : CacheState)
    (t t' : Nat) (ch : Channel) (r : ManifestRecord) (st' : CacheState)
    (fs : List Source)
    (h1 : resolve cfg env st t ch = ⟨Except.ok r, st', fs⟩)
    (h2 : fs ≠ []) (h4 : t' - t ≤ cfg.ttlSec) :
    resolve cfg env st' t' ch = ⟨Except.ok r, st', []⟩ := by
  have hmiss : resolveMiss cfg env st t ch = ⟨Except.ok r, st', fs⟩ := by
    unfold resolve at h1
    split at h1
    · split at h1
      · exact h1
      · cases h1
        exact absurd rfl h2
    · exact h1
  unfold resolveMiss at hmiss
  split at hmiss
  · simp at hmiss
  · rename_i r0 s0 hfs
    split at hmiss
    · simp at hmiss
    · rename_i r1 hfin
      simp only [ResolveOutcome.mk.injEq, Except.ok.injEq] at hmiss
      obtain ⟨hr, hst', _⟩ := hmiss
      have hch : st' ch =
          some { record := r1, fetched_at := t, ttl := cfg.ttlSec } := by
        have hpt : st' ch =
            if ch = ch then
              some { record := r1, fetched_at := t, ttl := cfg.ttlSec }
            else st ch := by
          rw [← hst']
        rw [hpt, if_pos rfl]
      have hnotexp :
          (CacheEntry.mk r1 t cfg.ttlSec).expired t' = false := by
        simp only [CacheEntry.expired, decide_eq_false_iff_not, not_lt]
        exact h4
      have hres : resolve cfg env st' t' ch =
          { result := Except.ok r1, cache := st', fetched := [] } := by
        unfold resolve
        rw [hch]
        simp [hnotexp]
      rw [hres, hr]

/-- A demonstration manifest record with an explicit download URL. -/
def demoRecord : ManifestRecord :=
  { app_version := "1.2.3", package_asset := "bomana.zip",
    package_sha256 := none, entrypoint := "bomana.exe",
    package_url := some "https://example.com/bomana.zip", source_name := "" }

/-- A demonstration configuration: local-then-github order, 300 s TTL,
stats-only mode, URL synthesis enabled. -/
def demoCfg : Config :=
  { order := [Source.localStore, Source.github], ttlSec := 300,
    statsOnly := true, autoGithubPackageUrl := true,
    repoOwner := "Thankyou-Cheems", repoName := "bomana" }

/-- A demonstration source environment: the local store has the record,
the remote origin is unreachable. -/
def demoEnv : Env :=
  fun s _ =>
    match s with
    | Source.localStore => some demoRecord
    | Source.github => none

/-- The empty cache. -/
def emptyCache : CacheState := fun _ => none

/-- Witness for C4: a miss-path resolution at `t = 1000` followed by a
second call at `t' = 1200` (within the 300 s TTL) that consults no source
and returns the cached record. -/
theorem resolve_cached_within_ttl_witness :
    resolve demoCfg demoEnv
      (resolve demoCfg demoEnv emptyCache 1000 "Enhanced").cache 1200 "Enhanced" =
      ⟨Except.ok { demoRecord with source_name := "local" },
       (resolve demoCfg demoEnv emptyCache 1000 "Enhanced").cache, []⟩ :=
  resolve_cached_within_ttl demoCfg demoEnv emptyCache 1000 1200 "Enhanced"
    { demoRecord with source_name := "local" }
    (resolve demoCfg demoEnv emptyCache 1000 "Enhanced").cache
    [Source.localStore] rfl (by decide) (by decide)

/-- C6: when every configured source fails and the cache holds no fresh
entry for the channel (absent or expired), `resolve` returns
`ResolutionError.resolutionExhausted` and leaves the cache untouched — in
particular the expired entry is never served stale. -/
theorem resolve_fail_closed (cfg : Config) (env : Env) (st : CacheState)
    (now : Nat) (ch : Channel)
    (hsrc : ∀ s ∈ cfg.order, env s ch = none)
    (hstale : ∀ e, st ch = some e → e.expired now = true) :
    resolve cfg env st now ch =
      ⟨Except.error ResolutionError.resolutionExhausted, st,
        consulted env ch cfg.order⟩ := by
  have hnone := firstSource_eq_none env ch cfg.order hsrc
  have hm : resolveMiss cfg env st now ch =
      ⟨Except.error ResolutionError.resolutionExhausted, st,
        consulted env ch cfg.order⟩ := by
    unfold resolveMiss
    rw [hnone]
  unfold resolve
  split
  · rename_i e heq
    rw [hstale e heq]
    simpa using hm
  · exact hm

/-- A cache holding an entry for `Enhanced` fetched at time 0 with
TTL 300. -/
def expiredCache : CacheState :=
  fun c =>
    if c = "Enhanced" then
      some { record := demoRecord, fetched_at := 0, ttl := 300 }
    else none

/-- A source environment in which both sources fail. -/
def failEnv : Env := fun _ _ => none

/-- Witness for C6: at time 1000 the `Enhanced` entry (fetched at 0,
TTL 300) is expired, both sources fail, and `resolve` fails closed. -/
theorem resolve_fail_closed_witness :
    resolve demoCfg failEnv expiredCache 1000 "Enhanced" =
      ⟨Except.error ResolutionError.resolutionExhausted, expiredCache,
        consulted failEnv "Enhanced" demoCfg.order⟩ :=
  resolve_fail_closed demoCfg failEnv expiredCache 1000 "Enhanced"
    (fun _ _ => rfl)
    (by
      intro e he
      rw [show expiredCache "Enhanced" =
        some { record := demoRecord, fetched_at := 0, ttl := 300 } from rfl] at he
      cases he
      decide)

/-- Every record stored in the cache has a non-empty download URL. -/
def CacheUrlOk (st : CacheState) : Prop :=
  ∀ ch e, st ch = some e → hasUrl e.record = true

theorem synthesizeUrl_ne_empty (cfg : Config) (r : ManifestRecord)
    (u : String) (h : synthesizeUrl cfg r = some u) : u ≠ "" := by
  unfold synthesizeUrl at h
  split at h
  · cases h
    intro he
    have hd := congrArg String.data he
    rw [String.data_append] at hd
    have h19 : "https://github.com/".data = [] := (List.append_eq_nil.mp hd).1
    exact absurd h19 (by decide)
  · cases h

theorem hasUrl_set_source (r : ManifestRecord) (nm : String) :
    hasUrl { r with source_name := nm } = hasUrl r := rfl

theorem finalize_statsOnly_hasUrl (cfg : Config) (r : ManifestRecord)
    (s : Source) (r' : ManifestRecord) (hmode : cfg.statsOnly = true)
    (h : finalize cfg r s = some r') : hasUrl r' = true := by
  unfold finalize at h
  by_cases hu : hasUrl r = true
  · rw [if_pos hu] at h
    cases h
    rw [hasUrl_set_source]
    exact hu
  · rw [if_neg hu] at h
    cases hsyn : synthesizeUrl cfg r with
    | none => rw [hsyn, hmode] at h; simp at h
    | some u =>
      rw [hsyn] at h
      cases h
      have := synthesizeUrl_ne_empty cfg r u hsyn
      simp [hasUrl, this]

/-- C7: in stats-only mode, a successful `resolve` (starting from a cache
every entry of which has a usable URL — e.g. the empty cache) never
returns a record whose `package_url` is absent or empty, and the cache
keeps that invariant; a selected record without an explicit or
synthesizable URL makes resolution fail with ResolutionExhausted instead
(the `finalize` branch returning `none`). -/
theorem stats_only_url_present (cfg : Config) (env : Env) (st : CacheState)
    (now : Nat) (ch : Channel) (r : ManifestRecord) (st' : CacheState)
    (fs : List Source)
    (hmode : cfg.statsOnly = true) (hok : CacheUrlOk st)
    (h : resolve cfg env st now ch = ⟨Except.ok r, st', fs⟩) :
    hasUrl r = true ∧ CacheUrlOk st' := by
  have hmissCase : ∀ (hm : resolveMiss cfg env st now ch = ⟨Except.ok r, st', fs⟩),
      hasUrl r = true ∧ CacheUrlOk st' := by
    intro hm
    unfold resolveMiss at hm
    split at hm
    · simp at hm
    · rename_i r0 s0 hfs
      split at hm
      · simp at hm
      · rename_i r1 hfin
        simp only [ResolveOutcome.mk.injEq, Except.ok.injEq] at hm
        obtain ⟨hr, hst', _⟩ := hm
        have hurl := finalize_statsOnly_hasUrl cfg r0 s0 r1 hmode hfin
        refine ⟨hr ▸ hurl, ?_⟩
        intro c e he
        have hpt : st' c =
            if c = ch then
              some { record := r1, fetched_at := now, ttl := cfg.ttlSec }
            else st c := by
          rw [← hst']
        rw [hpt] at he
        by_cases hc : c = ch
        · rw [if_pos hc] at he
          injection he with he'
          rw [← he']
          exact hurl
        · rw [if_neg hc] at he
          exact hok c e he
  unfold resolve at h
  split at h
  · rename_i e hst
    split at h
    · exact hmissCase h
    · simp only [ResolveOutcome.mk.injEq, Except.ok.injEq] at h
      obtain ⟨hr, hst', _⟩ := h
      subst hr
      subst hst'
      exact ⟨hok ch e hst, hok⟩
  · exact hmissCase h

/-- Witness for C7: the stats-only demo configuration resolving from the
empty cache yields a record with the explicit non-empty URL and a cache
satisfying the URL invariant. -/
theorem stats_only_url_present_witness :
    hasUrl { demoRecord with source_name := "local" } = true ∧
    CacheUrlOk (resolve demoCfg demoEnv emptyCache 1000 "Enhanced").cache :=
  stats_only_url_present demoCfg demoEnv emptyCache 1000 "Enhanced"
    { demoRecord with source_name := "local" }
    (resolve demoCfg demoEnv emptyCache 1000 "Enhanced").cache
    [Source.localStore] rfl (fun _ _ he => nomatch he) rfl

/-- Modelled from the spec: one telemetry occurrence (§3 EventRecord) —
opaque device identifier, enumerated event type, channel, app version and
a UTC timestamp (seconds since the epoch). -/
structure EventRecord where
  device_id : String
  event_type : String
  channel : String
  app_version : String
  timestamp : Nat
deriving DecidableEq, Repr

/-- The UTC calendar day of an epoch-seconds timestamp. -/
def utcDay (ts : Nat) : Nat := ts / 86400

/-- The event is a `version_check` that falls on the given UTC day. -/
def isVersionCheckOn (day : Nat) (e : EventRecord) : Bool :=
  e.event_type == "version_check" && utcDay e.timestamp == day

/-- Modelled from the spec: DAU for a UTC day — group that day's
`version_check` events by device and count each device once (§4.5). -/
def dau (events : List EventRecord) (day : Nat) : Nat :=
  (((events.filter (isVersionCheckOn day)).map
    (fun e => e.device_id)).dedup).length

/-- Modelled from the spec: raw (non-deduplicated) count of
`launcher_start` events on a UTC day (§4.5). -/
def launcherStarts (events : List EventRecord) (day : Nat) : Nat :=
  (events.filter
    (fun e => e.event_type == "launcher_start" && utcDay e.timestamp == day)).length

/-- Modelled from the spec: raw (non-deduplicated) count of `app_launch`
events on a UTC day (§4.5). -/
def appLaunches (events : List EventRecord) (day : Nat) : Nat :=
  (events.filter
    (fun e => e.event_type == "app_launch" && utcDay e.timestamp == day)).length

/-- A `version_check` event from the given device at the given time. -/
def vcEvent (d : String) (ts : Nat) : EventRecord :=
  { device_id := d, event_type := "version_check", channel := "Enhanced",
    app_version := "1.2.3", timestamp := ts }

/-- The spec's worked DAU example: three `version_check` events from
device `A` and one from device `B`, all on UTC day 0. -/
def dauExample : List EventRecord :=
  [vcEvent "A" 100, vcEvent "A" 7500, vcEvent "A" 86000, vcEvent "B" 40000]

/-- C8: for every event store contents and every UTC day, `dau` equals
the number of distinct `device_id` values among that day's
`version_check` events (the cardinality of the set of device ids); the
spec's worked example (3 events from `A`, 1 from `B`, same day) yields
`dau = 2`, duplicating the whole store leaves `dau` at 2, while the
`launcher_start` and `app_launch` counters are raw event counts —
additive under concatenation, so duplicate events count again. -/
theorem dau_distinct_launch_raw :
    (∀ (events : List EventRecord) (day : Nat),
      dau events day =
        ((events.filter (isVersionCheckOn day)).map
          (fun e => e.device_id)).toFinset.card)
    ∧ dau dauExample 0 = 2
    ∧ dau (dauExample ++ dauExample) 0 = 2
    ∧ (∀ (es fs : List EventRecord) (day : Nat),
        launcherStarts (es ++ fs) day =
          launcherStarts es day + launcherStarts fs day)
    ∧ (∀ (es fs : List EventRecord) (day : Nat),
        appLaunches (es ++ fs) day =
          appLaunches es day + appLaunches fs day) := by
  refine ⟨?_, by decide, by decide, ?_, ?_⟩
  · intro events day
    rw [dau, List.card_toFinset]
  · intro es fs day
    simp [launcherStarts, List.filter_append]
  · intro es fs day
    simp [appLaunches, List.filter_append]

/-- The dependency state visible to the service's request handlers: the
manifest cache, the behaviour of the two manifest sources, and the event
store contents. -/
structure ServiceState where
  cache : CacheState
  env : Env
  events : List EventRecord

/-- Modelled from the spec: the HealthAPI handler — `GET /healthz`
returns 200 with a minimal liveness body and performs no dependency
checks (§6). -/
def healthzHandler (_st : ServiceState) : Response :=
  { status := 200, headers := [("Content-Type", "text/plain;charset=UTF-8")],
    body := "ok" }

/-- A demonstration service state: empty cache, failing sources, empty
event store. -/
def demoServiceState : ServiceState :=
  { cache := emptyCache, env := failEnv, events := [] }

/-- C3: `GET /healthz` always yields 200 with the minimal liveness body,
for every dependency state (manifest cache, source availability, event
store) — any two states produce the identical response — and the same
holds end to end through the edge worker forwarding `/healthz` to the
service. -/
theorem healthz_always_ok :
    (∀ st : ServiceState,
      (healthzHandler st).status = 200 ∧ (healthzHandler st).body = "ok")
    ∧ (∀ st st' : ServiceState, healthzHandler st = healthzHandler st')
    ∧ (∀ (st : ServiceState) (req : BomanaWorker.Request),
        req.url.pathname = "/healthz" →
        (BomanaWorker.workerFetch (fun _ _ => healthzHandler st) req).1.status = 200
        ∧ (BomanaWorker.workerFetch (fun _ _ => healthzHandler st) req).1.body = "ok") := by
  refine ⟨fun _ => ⟨rfl, rfl⟩, fun _ _ => rfl, ?_⟩
  intro st req hp
  have hallow : BomanaWorker.pathAllowed req.url.pathname = true := by
    rw [hp]
    decide
  simp [BomanaWorker.workerFetch, hallow, healthzHandler]

/-- Witness for C3: a concrete `/healthz` request through the worker to a
service whose sources all fail still answers 200 `ok`. -/
theorem healthz_always_ok_witness :
    (BomanaWorker.workerFetch (fun _ _ => healthzHandler demoServiceState)
      (BomanaWorker.demoReq "/healthz" "")).1.status = 200
    ∧ (BomanaWorker.workerFetch (fun _ _ => healthzHandler demoServiceState)
        (BomanaWorker.demoReq "/healthz" "")).1.body = "ok" :=
  healthz_always_ok.2.2 demoServiceState (BomanaWorker.demoReq "/healthz" "") rfl

/-- Modelled from the spec: the phase of one concurrent `resolve` caller
for a single channel during single-flight coalescing (§5, §9) — not yet
scheduled, attached to the in-flight resolution, performing the single
source round-trip, or finished with a record. -/
inductive Phase
  | start
  | waiting
  | working
  | done (r : ManifestRecord)
deriving DecidableEq, Repr

/-- Modelled from the spec: the shared state of one channel's single-flight
machinery — the (multiset of) caller phases, the channel's cache slot, the
per-key in-flight flag and the number of source fetch sequences started. -/
structure SFState where
  phases : Multiset Phase
  cache : Option ManifestRecord
  inflight : Bool
  fetches : Nat
deriving DecidableEq

/-- `n` callers about to resolve a channel whose cache entry is absent or
expired: nothing cached, nothing in flight, no fetches yet. -/
def initState (n : Nat) : SFState :=
  { phases := Multiset.replicate n Phase.start, cache := none,
    inflight := false, fetches := 0 }

/-- Modelled from the spec: one interleaving step of the per-channel
single-flight protocol (§5, §9). A starting caller hits a filled cache, or
installs itself as the single in-flight resolution (counting one fetch
sequence), or attaches to the pending one; the in-flight caller completes,
filling the cache with the fetched record `r0`; an attached caller picks
up the published result. -/
inductive Step (r0 : ManifestRecord) : SFState → SFState → Prop
  | hit (s : SFState) (c : ManifestRecord) :
      Phase.start ∈ s.phases → s.cache = some c →
      Step r0 s { s with phases := Phase.done c ::ₘ s.phases.erase Phase.start }
  | install (s : SFState) :
      Phase.start ∈ s.phases → s.cache = none → s.inflight = false →
      Step r0 s { s with
        phases := Phase.working ::ₘ s.phases.erase Phase.start,
        inflight := true, fetches := s.fetches + 1 }
  | attach (s : SFState) :
      Phase.start ∈ s.phases → s.cache = none → s.inflight = true →
      Step r0 s { s with phases := Phase.waiting ::ₘ s.phases.erase Phase.start }
  | complete (s : SFState) :
      Phase.working ∈ s.phases →
      Step r0 s { s with
        phases := Phase.done r0 ::ₘ s.phases.erase Phase.working,
        cache := some r0, inflight := false }
  | awaitDone (s : SFState) (c : ManifestRecord) :
      Phase.waiting ∈ s.phases → s.cache = some c →
      Step r0 s { s with phases := Phase.done c ::ₘ s.phases.erase Phase.waiting }

/-- States reachable by any interleaving of `n` concurrent callers from
the all-miss initial state. -/
inductive Reachable (n : Nat) (r0 : ManifestRecord) : SFState → Prop
  | init : Reachable n r0 (initState n)
  | step {s s' : SFState} : Reachable n r0 s → Step r0 s s' → Reachable n r0 s'

/-- The single-flight invariant: caller count is conserved; the fetch
count is 1 exactly when a resolution is in flight or has been published,
0 before; only the fetched record is ever cached; at most one caller —
none when nothing is in flight — is performing the round-trip; finished
callers hold the fetched record and the cache is filled. -/
def Inv (n : Nat) (r0 : ManifestRecord) (s : SFState) : Prop :=
  Multiset.card s.phases = n
  ∧ s.fetches = (if s.inflight || s.cache.isSome then 1 else 0)
  ∧ (s.cache = none ∨ s.cache = some r0)
  ∧ s.phases.count Phase.working ≤ (if s.inflight then 1 else 0)
  ∧ (∀ r : ManifestRecord, Phase.done r ∈ s.phases → r = r0 ∧ s.cache = some r0)

theorem inv_init (n : Nat) (r0 : ManifestRecord) : Inv n r0 (initState n) := by
  refine ⟨Multiset.card_replicate _ _, rfl, Or.inl rfl, ?_, ?_⟩
  · simp [initState, Multiset.count_replicate]
  · intro r hr
    have := Multiset.eq_of_mem_replicate hr
    cases this

theorem card_swap {a b : Phase} {ph : Multiset Phase} (hmem : b ∈ ph) :
    Multiset.card (a ::ₘ ph.erase b) = Multiset.card ph := by
  rw [Multiset.card_cons, Multiset.card_erase_of_mem hmem]
  exact Nat.succ_pred_eq_of_pos (Multiset.card_pos_iff_exists_mem.mpr ⟨b, hmem⟩)

theorem inv_step {n : Nat} {r0 : ManifestRecord} {s s' : SFState}
    (hinv : Inv n r0 s) (hstep : Step r0 s s') : Inv n r0 s' := by
  obtain ⟨hcard, hfetch, hcache, hwork, hdone⟩ := hinv
  cases hstep with
  | hit c hmem hc =>
    have hc0 : c = r0 := by
      cases hcache with
      | inl h => rw [h] at hc; cases hc
      | inr h => rw [h] at hc; cases hc; rfl
    refine ⟨by rw [← hcard]; exact card_swap hmem, hfetch, hcache, ?_, ?_⟩
    · calc (Phase.done c ::ₘ s.phases.erase Phase.start).count Phase.working
          = (s.phases.erase Phase.start).count Phase.working := by
            rw [Multiset.count_cons_of_ne (by simp)]
        _ = s.phases.count Phase.working := by
            rw [Multiset.count_erase_of_ne (by simp)]
        _ ≤ _ := hwork
    · intro r hr
      rcases Multiset.mem_cons.mp hr with h | h
      · cases h
        exact ⟨hc0, by rw [hc, hc0]⟩
      · exact hdone r (Multiset.mem_of_mem_erase h)
  | install hmem hc hinf =>
    have hf0 : s.fetches = 0 := by
      rw [hfetch, hinf, hc]
      rfl
    refine ⟨by rw [← hcard]; exact card_swap hmem, by simp [hf0], Or.inl hc, ?_, ?_⟩
    · have hw0 : s.phases.count Phase.working = 0 := by
        simp only [hinf, if_neg Bool.false_ne_true] at hwork
        omega
      calc (Phase.working ::ₘ s.phases.erase Phase.start).count Phase.working
          = (s.phases.erase Phase.start).count Phase.working + 1 := by
            rw [Multiset.count_cons_self]
        _ = s.phases.count Phase.working + 1 := by
            rw [Multiset.count_erase_of_ne (by simp)]
        _ ≤ 1 := by omega
    · intro r hr
      rcases Multiset.mem_cons.mp hr with h | h
      · cases h
      · have := (hdone r (Multiset.mem_of_mem_erase h)).2
        rw [hc] at this
        cases this
  | attach hmem hc hinf =>
    refine ⟨by rw [← hcard]; exact card_swap hmem, hfetch, hcache, ?_, ?_⟩
    · calc (Phase.waiting ::ₘ s.phases.erase Phase.start).count Phase.working
          = (s.phases.erase Phase.start).count Phase.working := by
            rw [Multiset.count_cons_of_ne (by simp)]
        _ = s.phases.count Phase.working := by
            rw [Multiset.count_erase_of_ne (by simp)]
        _ ≤ _ := hwork
    · intro r hr
      rcases Multiset.mem_cons.mp hr with h | h
      · cases h
      · have := (hdone r (Multiset.mem_of_mem_erase h)).2
        rw [hc] at this
        cases this
  | complete hmem =>
    have hinf : s.inflight = true := by
      cases hi : s.inflight
      · simp only [hi, if_neg Bool.false_ne_true] at hwork
        have := Multiset.one_le_count_iff_mem.mpr hmem
        omega
      · rfl
    have hf1 : s.fetches = 1 := by
      rw [hfetch, hinf]
      rfl
    refine ⟨by rw [← hcard]; exact card_swap hmem, by simp [hf1],
      Or.inr rfl, ?_, ?_⟩
    · calc (Phase.done r0 ::ₘ s.phases.erase Phase.working).count Phase.working
          = (s.phases.erase Phase.working).count Phase.working := by
            rw [Multiset.count_cons_of_ne (by simp)]
        _ = s.phases.count Phase.working - 1 := Multiset.count_erase_self _ _
        _ ≤ 0 := by
            have hwork1 : Multiset.count Phase.working s.phases ≤ 1 := by
              simpa [hinf] using hwork
            omega
        _ ≤ _ := by omega
    · intro r hr
      rcases Multiset.mem_cons.mp hr with h | h
      · cases h
        exact ⟨rfl, rfl⟩
      · exact ⟨(hdone r (Multiset.mem_of_mem_erase h)).1, rfl⟩
  | awaitDone c hmem hc =>
    have hc0 : c = r0 := by
      cases hcache with
      | inl h => rw [h] at hc; cases hc
      | inr h => rw [h] at hc; cases hc; rfl
    refine ⟨by rw [← hcard]; exact card_swap hmem, hfetch, hcache, ?_, ?_⟩
    · calc (Phase.done c ::ₘ s.phases.erase Phase.waiting).count Phase.working
          = (s.phases.erase Phase.waiting).count Phase.working := by
            rw [Multiset.count_cons_of_ne (by simp)]
        _ = s.phases.count Phase.working := by
            rw [Multiset.count_erase_of_ne (by simp)]
        _ ≤ _ := hwork
    · intro r hr
      rcases Multiset.mem_cons.mp hr with h | h
      · cases h
        exact ⟨hc0, by rw [hc, hc0]⟩
      · exact hdone r (Multiset.mem_of_mem_erase h)

theorem reachable_inv {n : Nat} {r0 : ManifestRecord} {s : SFState}
    (h : Reachable n r0 s) : Inv n r0 s := by
  induction h with
  | init => exact inv_init n r0
  | step _ hstep ih => exact inv_step ih hstep

/-- C5: in every state reachable by any interleaving of `n` concurrent
resolve callers for one channel from a cache miss, at most one fetch
sequence has been started and at most one caller is in flight; and once
every caller has finished, exactly one fetch sequence was performed
(`n ≥ 1`) and every caller holds that single resolution's record `r0`. -/
theorem single_flight (n : Nat) (r0 : ManifestRecord) (s : SFState)
    (h : Reachable n r0 s) (hn : 0 < n) :
    s.fetches ≤ 1
    ∧ s.phases.count Phase.working ≤ 1
    ∧ ((∀ p ∈ s.phases, ∃ r : ManifestRecord, p = Phase.done r) →
        s.fetches = 1 ∧ ∀ p ∈ s.phases, p = Phase.done r0) := by
  obtain ⟨hcard, hfetch, _hcache, hwork, hdone⟩ := reachable_inv h
  refine ⟨?_, ?_, ?_⟩
  · rw [hfetch]
    cases s.inflight || s.cache.isSome <;> simp
  · refine le_trans hwork ?_
    cases s.inflight <;> simp
  · intro hall
    have hpos : 0 < Multiset.card s.phases := by rw [hcard]; exact hn
    obtain ⟨p, hp⟩ := Multiset.card_pos_iff_exists_mem.mp hpos
    obtain ⟨r, hr⟩ := hall p hp
    rw [hr] at hp
    have hsome := (hdone r hp).2
    constructor
    · rw [hfetch, hsome]
      cases s.inflight <;> rfl
    · intro q hq
      obtain ⟨rq, hrq⟩ := hall q hq
      rw [hrq] at hq ⊢
      rw [(hdone rq hq).1]

/-- The final state of a two-caller run: both callers finished with the
fetched record, the cache is filled, nothing is in flight, one fetch. -/
def sfDemoFinal : SFState :=
  { phases := Phase.done demoRecord ::ₘ (Phase.done demoRecord ::ₘ 0),
    cache := some demoRecord, inflight := false, fetches := 1 }

theorem sfDemoFinal_reachable : Reachable 2 demoRecord sfDemoFinal := by
  have h0 : Reachable 2 demoRecord (initState 2) := Reachable.init
  have h1 := h0.step (Step.install (initState 2) (by decide) rfl rfl)
  have h2 := h1.step (Step.complete _ (by decide))
  have h3 := h2.step (Step.hit _ demoRecord (by decide) rfl)
  have hcast : ∀ (a b : SFState), a = b →
      Reachable 2 demoRecord a → Reachable 2 demoRecord b :=
    fun _ _ heq ha => heq ▸ ha
  exact hcast _ sfDemoFinal (by decide) h3

/-- Witness for C5: the two-caller run ending in `sfDemoFinal`. -/
theorem single_flight_witness :
    sfDemoFinal.fetches ≤ 1
    ∧ sfDemoFinal.phases.count Phase.working ≤ 1
    ∧ ((∀ p ∈ sfDemoFinal.phases, ∃ r : ManifestRecord, p = Phase.done r) →
        sfDemoFinal.fetches = 1 ∧
          ∀ p ∈ sfDemoFinal.phases, p = Phase.done demoRecord) :=
  single_flight 2 demoRecord sfDemoFinal sfDemoFinal_reachable (by decide)

end BomanaService
